import Mathlib

/-!
Verification of the PASGAL SSSP driver utilities (`src/utils.h`,
`src/SSSP/sssp.cpp`) against their natural-language specification.

The C++ sources are shallowly embedded: pure fragments become Lean
functions, machine-integer arithmetic is `Nat` with explicit `% 2^32`
or `% 2^64` where wraparound matters, fallible operations return
`Option`/`Except`, and unbounded loops take explicit fuel or an
explicit sample stream.
-/

namespace PASGAL

/-! ## Atomic relaxation primitive (`write_min`, utils.h lines 64-72)

```cpp
template <typename ET, typename F = std::less<ET>>
inline bool write_min(ET *a, ET b, F less = {}) {
  ET c;
  bool r = 0;
  do
    c = *a;
  while (less(b, c) && !(r = atomic_compare_and_swap(a, c, b)));
  return r;
}
```

In the absence of interference the compare-and-swap succeeds on the
first attempt (the CAS is guarded by the value `c` that was just read),
so one call either installs `b` (when `less b c`) and returns `true`,
or leaves the cell unchanged and returns `false`.  We model a call as a
function from the stored value and the candidate to the pair
(new stored value, returned flag). -/

def write_min (less : Nat → Nat → Bool) (a b : Nat) : Nat × Bool :=
  if less b a then (b, true) else (a, false)

/-- The comparator the distance arrays use: `std::less` on `uint32_t`. -/
def stdLess (x y : Nat) : Bool := decide (x < y)

/-- Stored values after a sequence of `write_min` calls with candidates
`bs`, starting from stored value `a`: the trace of cell contents,
beginning with `a` itself. -/
def write_min_trace (a : Nat) (bs : List Nat) : List Nat :=
  bs.scanl (fun x b => (write_min stdLess x b).1) a

/-! ## Driver verification step (`sssp.cpp`, `run`, lines 52-58)

```cpp
if (verify) {
  printf("Running verifier...\n");
  Dijkstra verifier(G);
  auto exp_dist = verifier.dijkstra(s);
  assert(dist == exp_dist);
  printf("Passed!\n");
}
```

`dist` is the scheduler's result (`dist = algo.sssp(s)`); `exp_dist` is
the Dijkstra verifier's result.  `parlay::sequence::operator==` is
size-equality plus element-wise equality; a failed `assert` is a
reported test failure and the comparison never writes to `dist`.  The
two solvers are modelled as opaque result functions `sssp` and
`dijkstra` from a source vertex to a distance array, since only the
comparison logic is under scrutiny here. -/

/-- `parlay::sequence` equality: equal sizes and equal elements. -/
def seqEq : List Nat → List Nat → Bool
  | [], [] => true
  | a :: as, b :: bs => (a == b) && seqEq as bs
  | _, _ => false

/-- Outcome of one timed/verified `run` invocation: the distance array
the driver keeps using (for the reduction, the dump, the return) and
whether the verification assertion failed. -/
structure RunOutcome where
  dist : List Nat
  assertFailed : Bool
  deriving Repr, DecidableEq

/-- The verification portion of `run`: compute the scheduler's
distances, then, when `verify` is set, compare them against the
Dijkstra verifier's distances with `assert(dist == exp_dist)`. -/
def run_verify (sssp dijkstra : Nat → List Nat) (s : Nat) (verify : Bool) :
    RunOutcome :=
  let dist := sssp s
  if verify then
    let exp_dist := dijkstra s
    { dist := dist, assertFailed := !(seqEq dist exp_dist) }
  else
    { dist := dist, assertFailed := false }

/-! ## Longest-distance reduction (`sssp.cpp`, `run`, lines 37-50)

```cpp
auto not_max_cmp = [&](EdgeTy a, EdgeTy b) {
  if (b == Algo::DIST_MAX) return false;
  if (a == Algo::DIST_MAX) return true;
  return a < b;
};
auto longest_distance = *parlay::max_element(dist, not_max_cmp);
```

`Algo::DIST_MAX` is the algorithm's sentinel; the comparator only tests
it for equality, so the development is parametric in its value `D`. -/

/-- The driver's comparator `not_max_cmp`, with the sentinel `D` as a
parameter. -/
def not_max_cmp (D a b : Nat) : Bool :=
  if b = D then false
  else if a = D then true
  else decide (a < b)

/-- `parlay::max_element` with comparator `cmp`: scan the sequence
keeping the current maximum, replacing it whenever the comparator says
the current maximum is below the candidate. -/
def max_element (cmp : Nat → Nat → Bool) : List Nat → Option Nat
  | [] => none
  | x :: xs => some (xs.foldl (fun m e => if cmp m e then e else m) x)

/-- The accumulator pass of `max_element` under `not_max_cmp D`, named
for the induction. -/
def foldMax (D : Nat) (xs : List Nat) (m : Nat) : Nat :=
  xs.foldl (fun a e => if not_max_cmp D a e then e else a) m

/-! ## `VectorReader` (utils.h lines 116-163)

`Read` parses whitespace-separated tokens:

```cpp
std::vector<ValueT_> sources;
while (!file.eof()) {
  ValueT_ source;
  file >> source;
  sources.push_back(source);
}
```

`operator>>` semantics (C++11): an extraction that consumes the last
character of the stream sets `eofbit` even when it succeeds; an
extraction that finds no token (end of file after whitespace) fails,
writes `0` to its operand, and sets `eofbit`.  Every extracted value is
pushed unconditionally.  A file is modelled by its token list plus a
flag saying whether trailing whitespace follows the last token (so the
last successful extraction does not reach end of file). -/

/-- `VectorReader::Read` on a file with tokens `ts`; the `Bool` is true
when whitespace follows the final token (e.g. a trailing newline). -/
def vectorRead : List Nat → Bool → List Nat
  | [], _ => [0]
  | [t], false => [t]
  | [t], true => [t, 0]
  | t :: u :: ts, tws => t :: vectorRead (u :: ts) tws

/-- A serialized-vector file for `VectorReader::ReadSerialized`:
whether `ifstream` can open it, the declared element count (the int64
header), and the values actually present in the body. -/
structure SerFile where
  openable : Bool
  header : Nat
  body : List Nat
  deriving Repr, DecidableEq

/-- `VectorReader::ReadSerialized`: an unopenable file prints a message
and `exit(-2)`s (modelled as `.error (-2)`).  Otherwise the vector is
`resize`d to the declared count (value-initialised to `0`) and
`file.read` copies in as many values as the body holds — the stream's
failure state after a short read is never inspected. -/
def readSerialized (f : SerFile) : Except Int (List Nat) :=
  if !f.openable then .error (-2)
  else .ok (f.body.take f.header ++ List.replicate (f.header - f.body.length) 0)

/-! ## `SourcePicker::PickNext`, file-driven branch (utils.h 181-185)

```cpp
if (!file_sources_.empty()) {
  static size_t current = 0;
  return file_sources_[current++];
}
```

`current` is a function-local `static`: one counter for the whole
program, shared by every `SourcePicker` instance, never reset and never
bounds-checked.  A call is modelled as taking the shared counter and
returning the (optional) vector access together with the incremented
counter. -/

/-- One file-driven `PickNext` call: index the source list with the
shared static counter (out-of-range access yields `none`) and bump the
counter. -/
def pickNextFile (fs : List Nat) (current : Nat) : Option Nat × Nat :=
  (fs[current]?, current + 1)

/-- A run of `k` consecutive file-driven `PickNext` calls starting from
shared counter `current`: the list of accesses and the final counter. -/
def pickNextFileRun (fs : List Nat) (current : Nat) : Nat → List (Option Nat) × Nat
  | 0 => ([], current)
  | k + 1 =>
    let r := pickNextFile fs current
    let rest := pickNextFileRun fs r.2 k
    (r.1 :: rest.1, rest.2)

/-! ## `UniDist` (utils.h lines 84-114)

```cpp
template <typename NodeID_, typename rng_t_,
          typename uNodeID_ = typename std::make_unsigned<NodeID_>::type>
class UniDist {
  UniDist(NodeID_ max_value, rng_t_ &rng) : rng_(rng) {
    no_mod_ = rng_.max() == static_cast<uNodeID_>(max_value);
    mod_ = max_value + 1;
    uNodeID_ remainder_sub_1 = rng_.max() % mod_;
    if (remainder_sub_1 == mod_ - 1) cutoff_ = 0;
    else cutoff_ = rng_.max() - remainder_sub_1;
  }
  NodeID_ operator()() {
    uNodeID_ rand_num = rng_();
    if (no_mod_) return rand_num;
    if (cutoff_ != 0) { while (rand_num >= cutoff_) rand_num = rng_(); }
    return rand_num % mod_;
  }
  ...
  uNodeID_ mod_, cutoff_;
};
```

The driver instantiates `NodeID_ = uint32_t` (so `uNodeID_ = uint32_t`)
and `rng_t_ = std::mt19937_64` (so `rng_.max() = 2^64 - 1`).  The
constructor arithmetic mixes the two widths: `rng_.max() % mod_` and
`rng_.max() - remainder_sub_1` are computed in `uint64_t` and then
truncated to the `uint32_t` fields, and each drawn `rng_()` value is
likewise truncated to `uint32_t` on assignment to `rand_num`.  The
embedding makes every truncation an explicit `% 2^32`. -/

/-- `2^32`, the modulus of `uint32_t` arithmetic. -/
def U32 : Nat := 2 ^ 32

/-- `2^64`, the modulus of `uint64_t` arithmetic. -/
def U64 : Nat := 2 ^ 64

/-- `std::mt19937_64::max()`, i.e. `2^64 - 1`. -/
def U64MAX : Nat := 2 ^ 64 - 1

/-- The fields `UniDist` computes in its constructor. -/
structure UniDistState where
  no_mod : Bool
  mod : Nat
  cutoff : Nat
  deriving Repr, DecidableEq

/-- The `UniDist` constructor for `NodeID_ = uint32_t`,
`rng_t_ = std::mt19937_64` (`max_value` is a `uint32_t` value). -/
def uniDistInit (max_value : Nat) : UniDistState :=
  let no_mod := decide (U64MAX = max_value)
  let m := (max_value + 1) % U32
  let remainder_sub_1 := U64MAX % m
  let cutoff := if remainder_sub_1 = m - 1 then 0 else (U64MAX - remainder_sub_1) % U32
  ⟨no_mod, m, cutoff⟩

/-- How many 32-bit truncated generator samples below `cutoff` — i.e.
samples the rejection loop accepts — are mapped by `% m` to the value
`v`.  (Each 32-bit truncated value is the image of exactly `2^32` raw
64-bit generator values, so equal counts here are equivalent to equal
counts of accepted raw samples.) -/
def acceptCount (cutoff m v : Nat) : Nat :=
  ((List.range cutoff).filter (fun x => x % m = v)).length

/-! ## `std::mt19937_64` (the generator `SourcePicker` seeds with 27491095)

Standard 64-bit Mersenne Twister: 312-word state, seeding recurrence
`mt[i] = 6364136223846793005 * (mt[i-1] ^ (mt[i-1] >> 62)) + i`, twist
with `(m, r, a) = (156, 31, 0xB5026F5AA96619E9)` and the usual
tempering.  All arithmetic is mod `2^64`. -/

/-- Generator state: the 312 state words and the output index. -/
structure MTState where
  mt : Array Nat
  mti : Nat
  deriving Repr, DecidableEq

/-- Seeding recurrence: the list of state words `k, k-1, …, 0` (most
recent first). -/
def mtSeedAux (seed : Nat) : Nat → List Nat
  | 0 => [seed % U64]
  | i + 1 =>
    let rest := mtSeedAux seed i
    let prev := rest.headD 0
    ((6364136223846793005 * (prev ^^^ (prev >>> 62)) + (i + 1)) % U64) :: rest

/-- `std::mt19937_64 rng(seed)`: all 312 words seeded, index at 312 so
the first draw twists. -/
def mtInit (seed : Nat) : MTState :=
  ⟨((mtSeedAux seed 311).reverse).toArray, 312⟩

/-- One twist assignment (in place, sequential, as in the reference
implementation). -/
def mtTwistStep (mt : Array Nat) (i : Nat) : Array Nat :=
  let x := (mt.getD i 0 &&& 0xFFFFFFFF80000000) ||| (mt.getD ((i + 1) % 312) 0 &&& 0x7FFFFFFF)
  let xA := x >>> 1
  let xA := if x % 2 = 1 then xA ^^^ 0xB5026F5AA96619E9 else xA
  mt.setD i ((mt.getD ((i + 156) % 312) 0) ^^^ xA)

/-- Regenerate all 312 state words. -/
def mtTwist (mt : Array Nat) : Array Nat :=
  (List.range 312).foldl mtTwistStep mt

/-- Output tempering. -/
def mtTemper (x : Nat) : Nat :=
  let y := x ^^^ ((x >>> 29) &&& 0x5555555555555555)
  let y := y ^^^ ((y <<< 17) &&& 0x71D67FFFEDA60000)
  let y := y ^^^ ((y <<< 37) &&& 0xFFF7EEE000000000)
  y ^^^ (y >>> 43)

/-- `rng_()`: one 64-bit draw. -/
def mtNext (st : MTState) : Nat × MTState :=
  if st.mti ≥ 312 then
    let mt' := mtTwist st.mt
    (mtTemper (mt'.getD 0 0), ⟨mt', 1⟩)
  else
    (mtTemper (st.mt.getD st.mti 0), ⟨st.mt, st.mti + 1⟩)

/-! ## `SourcePicker::PickNext` (utils.h lines 165-203) -/

/-- Out-degree of vertex `s` in the CSR offsets array:
`offsets[s+1] - offsets[s]`. -/
def outDeg (offsets : List Nat) (s : Nat) : Nat :=
  offsets.getD (s + 1) 0 - offsets.getD s 0

/-- The random branch of `PickNext`: draw `s = udist_()` and retry while
`offsets[s+1] - offsets[s] == 0`.  The draws are abstracted as the
stream `samples` (the successive outputs of `udist_`); `i` is the index
of the next draw and `fuel` bounds the number of attempts. -/
def pickRandomLoop (offsets : List Nat) (samples : Nat → Nat) : Nat → Nat → Option Nat
  | _, 0 => none
  | i, fuel + 1 =>
    let s := samples i
    if outDeg offsets s = 0 then pickRandomLoop offsets samples (i + 1) fuel
    else some s

/-- `SourcePicker::PickNext`: fixed source if `given_source_ != UINT_MAX`,
else the file-driven branch (shared static counter `cur`), else the
random draw-until-positive-degree loop.  Returns the picked vertex (if
any) and the new shared counter. -/
def PickNext (given_source UINT_MAX : Nat) (file_sources : List Nat) (cur : Nat)
    (offsets : List Nat) (samples : Nat → Nat) (fuel : Nat) : Option Nat × Nat :=
  if given_source ≠ UINT_MAX then (some given_source, cur)
  else if ¬ file_sources.isEmpty then pickNextFile file_sources cur
  else (pickRandomLoop offsets samples 0 fuel, cur)

/-! ## The driver's source-selection loop (`sssp.cpp` lines 270-286)

```cpp
std::mt19937_64 rng(27491095);
UniDist<NodeId, std::mt19937_64> udist(G.n - 1, rng);
for (int v = 0; v < sources; v++) {
  NodeId s, deg;
  do {
    s = udist();
    deg = G.offsets[s + 1] - G.offsets[s];
  } while (deg == 0);
  ...
}
```

The generator is seeded with the literal constant `27491095`; nothing
about the run's environment enters the computation.  To state that as a
hyperproperty, the run model takes an `entropy` argument standing for
whatever a non-fixed seeding would consume (wall clock, random device):
the code never reads it. -/

/-- The `UniDist::operator()` rejection loop on the live generator:
`rand` is the current 32-bit truncated draw; while `rand >= cutoff_`
redraw. `fuel` bounds the redraws. -/
def uniRejectM (ud : UniDistState) : Nat → Nat → MTState → Option Nat × MTState
  | rand, 0, rng =>
    if rand < ud.cutoff then (some (rand % ud.mod), rng) else (none, rng)
  | rand, fuel + 1, rng =>
    if rand < ud.cutoff then (some (rand % ud.mod), rng)
    else
      let r := mtNext rng
      uniRejectM ud (r.1 % U32) fuel r.2

/-- `udist()` on the live generator: draw, truncate to `uint32_t`,
reject-and-redraw below the cutoff, reduce `% mod_`. -/
def uniDistDrawM (ud : UniDistState) (rng : MTState) (fuel : Nat) : Option Nat × MTState :=
  let r := mtNext rng
  let rand := r.1 % U32
  if ud.no_mod then (some rand, r.2)
  else if ud.cutoff ≠ 0 then uniRejectM ud rand fuel r.2
  else (some (rand % ud.mod), r.2)

/-- The driver's do-while: draw sources until one has positive
out-degree. -/
def sourceDraw (offsets : List Nat) (ud : UniDistState) (drawFuel : Nat) :
    Nat → MTState → Option Nat × MTState
  | 0, rng => (none, rng)
  | tries + 1, rng =>
    match uniDistDrawM ud rng drawFuel with
    | (none, rng1) => (none, rng1)
    | (some s, rng1) =>
      if outDeg offsets s = 0 then sourceDraw offsets ud drawFuel tries rng1
      else (some s, rng1)

/-- The outer `for (v = 0; v < sources; v++)` loop: the sequence of
picked sources, threading the generator state. -/
def sourceSelLoop (offsets : List Nat) (ud : UniDistState) (fuel : Nat) :
    Nat → MTState → List (Option Nat)
  | 0, _ => []
  | k + 1, rng =>
    let r := sourceDraw offsets ud fuel fuel rng
    r.1 :: sourceSelLoop offsets ud fuel k r.2

/-- One full source-selection run over a graph with `n` vertices and
CSR `offsets`, picking `numSrc` sources.  `entropy` models the
environment a non-deterministic seeding would read; the code seeds with
the constant `27491095` and never touches it. -/
def sourceSelectionRun (offsets : List Nat) (n numSrc fuel : Nat)
    (_entropy : Nat) : List (Option Nat) :=
  sourceSelLoop offsets (uniDistInit (n - 1)) fuel numSrc (mtInit 27491095)

end PASGAL

namespace PASGAL

/-- Helper: a `scanl` trace always starts with its seed. -/
theorem scanl_head_eq (f : Nat → Nat → Nat) (a : Nat) (bs : List Nat) :
    (List.scanl f a bs).head? = some a := by
  cases bs <;> simp [List.scanl]

/-- **C2.** Monotone non-increase: one `write_min` call never increases
the stored value, and a sequence of `write_min` calls to the same cell
yields a non-increasing trace of stored values. -/
theorem write_min_monotone :
    (∀ a b, (write_min stdLess a b).1 ≤ a) ∧
    (∀ a bs, (write_min_trace a bs).Chain' (fun x y => y ≤ x)) := by
  have hle : ∀ a b, (write_min stdLess a b).1 ≤ a := by
    intro a b
    by_cases h : b < a
    · simp [write_min, stdLess, h]
      omega
    · simp [write_min, stdLess, h]
  refine ⟨hle, ?_⟩
  intro a bs
  induction bs generalizing a with
  | nil => simp [write_min_trace]
  | cons b bs ih =>
    rw [write_min_trace, List.scanl]
    refine List.chain'_cons'.mpr ⟨?_, ih _⟩
    intro y hy
    rw [scanl_head_eq] at hy
    cases hy
    exact hle a b

/-- Helper: `seqEq` decides list equality. -/
theorem seqEq_eq_true_iff : ∀ a b : List Nat, seqEq a b = true ↔ a = b := by
  intro a
  induction a with
  | nil => intro b; cases b <;> simp [seqEq]
  | cons x xs ih =>
    intro b
    cases b with
    | nil => simp [seqEq]
    | cons y ys => simp [seqEq, ih ys]

/-- **C3.** With verification enabled, the driver compares the
scheduler's distance array against the Dijkstra verifier's array
element-wise for exact equality (equal lengths and equal entries at
every position, sentinel for sentinel): the assertion passes iff the
arrays agree at every index, any mismatch fails the assertion, and in
every case the driver's retained result is the scheduler's own array,
unaltered by the comparison. -/
theorem run_verify_spec (sssp dijkstra : Nat → List Nat) (s : Nat) (verify : Bool) :
    (run_verify sssp dijkstra s verify).dist = sssp s ∧
    ((run_verify sssp dijkstra s true).assertFailed = false ↔
      ((sssp s).length = (dijkstra s).length ∧
        ∀ i (h1 : i < (sssp s).length) (h2 : i < (dijkstra s).length),
          (sssp s)[i] = (dijkstra s)[i])) := by
  constructor
  · unfold run_verify
    cases verify <;> simp
  · show (!seqEq (sssp s) (dijkstra s)) = false ↔ _
    rw [Bool.not_eq_false', seqEq_eq_true_iff]
    constructor
    · intro h
      rw [h]
      exact ⟨rfl, fun i h1 h2 => rfl⟩
    · rintro ⟨hlen, helem⟩
      exact List.ext_get hlen fun i h1 h2 => helem i h1 h2

/-- **C1.** `write_min(a, b)`: the cell is replaced by `b` iff `b` is
strictly smaller than the stored value under the supplied comparator;
the call returns `true` exactly when that replacement happened; and
when `¬ less b a` the call returns `false` and leaves the cell
unchanged. -/
theorem write_min_spec (less : Nat → Nat → Bool) (a b : Nat) :
    ((write_min less a b).2 = true ↔ less b a = true) ∧
    (less b a = true → (write_min less a b).1 = b) ∧
    (less b a = false → (write_min less a b).1 = a ∧ (write_min less a b).2 = false) := by
  unfold write_min
  by_cases h : less b a = true
  · simp [h]
  · simp [h]

/-- Helper: unfolding one step of `foldMax`. -/
theorem foldMax_cons (D e m : Nat) (xs : List Nat) :
    foldMax D (e :: xs) m = foldMax D xs (if not_max_cmp D m e then e else m) := rfl

/-- Helper: the `max_element` accumulator pass returns an element of the
list or the seed, never increases past the sentinel once a non-sentinel
is seen, and dominates every non-sentinel input. -/
theorem foldMax_spec (D : Nat) :
    ∀ (xs : List Nat) (m : Nat),
      (foldMax D xs m = m ∨ foldMax D xs m ∈ xs) ∧
      (m ≠ D → foldMax D xs m ≠ D ∧ m ≤ foldMax D xs m) ∧
      (∀ u ∈ xs, u ≠ D → foldMax D xs m ≠ D ∧ u ≤ foldMax D xs m) := by
  intro xs
  induction xs with
  | nil =>
    intro m
    exact ⟨Or.inl rfl, fun h => ⟨h, le_refl m⟩, by simp⟩
  | cons e xs ih =>
    intro m
    by_cases he : e = D
    · have hstep : foldMax D (e :: xs) m = foldMax D xs m := by
        simp [foldMax_cons, not_max_cmp, he]
      obtain ⟨ih1, ih2, ih3⟩ := ih m
      rw [hstep]
      refine ⟨?_, ih2, ?_⟩
      · rcases ih1 with h | h
        · exact Or.inl h
        · exact Or.inr (List.mem_cons_of_mem e h)
      · intro u hu hud
        rcases List.mem_cons.mp hu with rfl | h
        · exact absurd he hud
        · exact ih3 u h hud
    · by_cases hm : m = D
      · have hstep : foldMax D (e :: xs) m = foldMax D xs e := by
          rw [foldMax_cons, not_max_cmp, if_neg he, if_pos hm, if_pos rfl]
        obtain ⟨ih1, ih2, ih3⟩ := ih e
        rw [hstep]
        refine ⟨?_, fun h => absurd hm h, ?_⟩
        · rcases ih1 with h | h
          · exact Or.inr (by rw [h]; exact List.mem_cons_self e xs)
          · exact Or.inr (List.mem_cons_of_mem e h)
        · intro u hu hud
          rcases List.mem_cons.mp hu with rfl | h
          · exact ih2 hud
          · exact ih3 u h hud
      · by_cases hlt : m < e
        · have hstep : foldMax D (e :: xs) m = foldMax D xs e := by
            rw [foldMax_cons, not_max_cmp, if_neg he, if_neg hm, if_pos (decide_eq_true hlt)]
          obtain ⟨ih1, ih2, ih3⟩ := ih e
          rw [hstep]
          refine ⟨?_, ?_, ?_⟩
          · rcases ih1 with h | h
            · exact Or.inr (by rw [h]; exact List.mem_cons_self e xs)
            · exact Or.inr (List.mem_cons_of_mem e h)
          · intro _
            obtain ⟨h1, h2⟩ := ih2 he
            exact ⟨h1, le_trans (le_of_lt hlt) h2⟩
          · intro u hu hud
            rcases List.mem_cons.mp hu with rfl | h
            · exact ih2 hud
            · exact ih3 u h hud
        · have hstep : foldMax D (e :: xs) m = foldMax D xs m := by
            rw [foldMax_cons, not_max_cmp, if_neg he, if_neg hm]
            have : (decide (m < e)) = false := decide_eq_false hlt
            rw [this, if_neg (by simp)]
          obtain ⟨ih1, ih2, ih3⟩ := ih m
          rw [hstep]
          refine ⟨?_, ih2, ?_⟩
          · rcases ih1 with h | h
            · exact Or.inl h
            · exact Or.inr (List.mem_cons_of_mem e h)
          · intro u hu hud
            rcases List.mem_cons.mp hu with rfl | h
            · obtain ⟨h1, h2⟩ := ih2 hm
              exact ⟨h1, le_trans (Nat.le_of_not_lt hlt) h2⟩
            · exact ih3 u h hud

/-- **C4.** Under the driver's comparator `not_max_cmp`, the sentinel
`DIST_MAX` compares below every non-sentinel value, no value compares
below `DIST_MAX` as the right operand, and for every distance array
holding at least one non-sentinel entry the `max_element` reduction
returns the largest non-sentinel value — never `DIST_MAX`. -/
theorem not_max_cmp_spec (D : Nat) (l : List Nat) (h : ∃ v ∈ l, v ≠ D) :
    (∀ v, v ≠ D → not_max_cmp D D v = true) ∧
    (∀ v, not_max_cmp D v D = false) ∧
    ∃ w, max_element (not_max_cmp D) l = some w ∧ w ≠ D ∧ w ∈ l ∧
      ∀ u ∈ l, u ≠ D → u ≤ w := by
  refine ⟨?_, ?_, ?_⟩
  · intro v hv
    simp [not_max_cmp, hv]
  · intro v
    simp [not_max_cmp]
  · cases l with
    | nil => simp at h
    | cons x xs =>
      obtain ⟨ih1, ih2, ih3⟩ := foldMax_spec D xs x
      have hmax : max_element (not_max_cmp D) (x :: xs) = some (foldMax D xs x) := rfl
      refine ⟨foldMax D xs x, hmax, ?_⟩
      by_cases hx : x = D
      · obtain ⟨v, hv, hvd⟩ := h
        rcases List.mem_cons.mp hv with rfl | hv'
        · exact absurd hx hvd
        · obtain ⟨h1, _⟩ := ih3 v hv' hvd
          refine ⟨h1, ?_, ?_⟩
          · rcases ih1 with heq | hmem
            · exact absurd (heq.trans hx) h1
            · exact List.mem_cons_of_mem x hmem
          · intro u hu hud
            rcases List.mem_cons.mp hu with rfl | hu'
            · exact absurd hx hud
            · exact (ih3 u hu' hud).2
      · obtain ⟨h1, h2⟩ := ih2 hx
        refine ⟨h1, ?_, ?_⟩
        · rcases ih1 with heq | hmem
          · exact (by rw [heq]; exact List.mem_cons_self x xs)
          · exact List.mem_cons_of_mem x hmem
        · intro u hu hud
          rcases List.mem_cons.mp hu with rfl | hu'
          · exact h2
          · exact (ih3 u hu' hud).2

/-- Witness for C4 at `D = 100`, `l = [100, 3, 7]`. -/
theorem not_max_cmp_spec_witness :
    (∃ v ∈ [100, 3, 7], v ≠ 100) ∧
    ((∀ v, v ≠ 100 → not_max_cmp 100 100 v = true) ∧
      (∀ v, not_max_cmp 100 v 100 = false) ∧
      ∃ w, max_element (not_max_cmp 100) [100, 3, 7] = some w ∧ w ≠ 100 ∧
        w ∈ [100, 3, 7] ∧ ∀ u ∈ [100, 3, 7], u ≠ 100 → u ≤ w) :=
  ⟨by decide, not_max_cmp_spec 100 [100, 3, 7] (by decide)⟩

/-- **C10.** `Read` tests `eof()` before extracting, so whenever the
last extraction attempt fails at end of file — e.g. the file ends in a
newline after its last token — the returned vector carries one spurious
trailing element (a zero-written failed extraction) beyond the tokens
actually present. -/
theorem vectorRead_trailing_spurious :
    ∀ ts : List Nat, vectorRead ts true = ts ++ [0] ∧
      (vectorRead ts true).length = ts.length + 1 := by
  have key : ∀ ts : List Nat, vectorRead ts true = ts ++ [0] := by
    intro ts
    induction ts with
    | nil => rfl
    | cons t ts ih =>
      cases ts with
      | nil => rfl
      | cons u ts' =>
        show t :: vectorRead (u :: ts') true = _
        rw [ih]
        rfl
  intro ts
  refine ⟨key ts, ?_⟩
  rw [key ts]
  simp

/-- Helper: a run of `k` file-driven `PickNext` calls from counter `c`
accesses indices `c, c+1, …, c+k-1` and leaves the counter at `c+k`. -/
theorem pickNextFileRun_spec (fs : List Nat) :
    ∀ (k c : Nat), (pickNextFileRun fs c k).2 = c + k ∧
      (pickNextFileRun fs c k).1 = (List.range k).map (fun i => fs[c + i]?) := by
  intro k
  induction k with
  | zero => intro c; simp [pickNextFileRun]
  | succ k ih =>
    intro c
    obtain ⟨ih2, ih1⟩ := ih (c + 1)
    have harith : ∀ i, c + 1 + i = c + (i + 1) := fun i => by omega
    constructor
    · show (pickNextFileRun fs (c + 1) k).2 = c + (k + 1)
      rw [ih2]
      omega
    · show fs[c]? :: (pickNextFileRun fs (c + 1) k).1 = _
      rw [ih1, List.range_succ_eq_map, List.map_cons, List.map_map]
      refine congrArg₂ _ (by rw [Nat.add_zero]) ?_
      refine congrArg₂ _ ?_ rfl
      funext i
      show fs[c + 1 + i]? = fs[c + (i + 1)]?
      rw [harith i]

/-- **C9.** The file-driven branch of `PickNext` indexes the source
vector with an unchecked, monotonically increasing counter: a run of
`k > fs.length` calls from a fresh counter makes an out-of-range access
(the indexing yields `none`), the counter ends at `k`, and — the counter
being a function-local `static` shared by all `SourcePicker` instances —
a second picker's first call indexes its own file at position `k`, not
at position `0`. -/
theorem pickNextFile_static_oob (fs fs2 : List Nat) (k : Nat)
    (h : fs.length < k) :
    (pickNextFileRun fs 0 k).2 = k ∧
    none ∈ (pickNextFileRun fs 0 k).1 ∧
    (pickNextFile fs2 (pickNextFileRun fs 0 k).2).1 = fs2[k]? := by
  obtain ⟨h2, h1⟩ := pickNextFileRun_spec fs k 0
  have hk : (pickNextFileRun fs 0 k).2 = k := by rw [h2]; omega
  refine ⟨hk, ?_, ?_⟩
  · rw [h1]
    refine List.mem_map.mpr ⟨fs.length, List.mem_range.mpr h, ?_⟩
    rw [Nat.zero_add]
    exact List.getElem?_eq_none (Nat.le_refl _)
  · rw [hk]
    rfl

/-- Witness for C9: a one-entry file exhausted by two calls, and a
second picker starting at the shared counter's position `2`. -/
theorem pickNextFile_static_oob_witness :
    [4].length < 2 ∧
    ((pickNextFileRun [4] 0 2).2 = 2 ∧
      none ∈ (pickNextFileRun [4] 0 2).1 ∧
      (pickNextFile [7, 8, 9] (pickNextFileRun [4] 0 2).2).1 = [7, 8, 9][2]?) :=
  ⟨by decide, pickNextFile_static_oob [4] [7, 8, 9] 2 (by decide)⟩

/-- **C8, counterexample.** A truncated serialized vector is *not*
detected: an openable file declaring 2 values whose body holds only one
value `5` is read successfully as `[5, 0]` — no report, no exit. -/
theorem readSerialized_truncated_not_detected :
    readSerialized ⟨true, 2, [5]⟩ = .ok [5, 0] := by
  rfl

/-- **C8, amended.** An unreadable file is fatally reported
(`exit(-2)`) before any solving; but a serialized file whose body holds
fewer than the declared number of values is read without any error: the
result has the declared length, starts with the values present, and is
zero-filled past them. -/
theorem readSerialized_amended (f : SerFile) :
    (f.openable = false → readSerialized f = .error (-2)) ∧
    (f.openable = true → f.body.length < f.header →
      ∃ v, readSerialized f = .ok v ∧ v.length = f.header ∧
        v.take f.body.length = f.body ∧ ∀ x ∈ v.drop f.body.length, x = 0) := by
  constructor
  · intro h
    simp [readSerialized, h]
  · intro ho hlt
    have hb : f.body.take f.header = f.body :=
      List.take_of_length_le (le_of_lt hlt)
    refine ⟨f.body.take f.header ++ List.replicate (f.header - f.body.length) 0,
      by simp [readSerialized, ho], ?_, ?_, ?_⟩
    · rw [hb]
      simp
      omega
    · rw [hb]
      have := List.take_left f.body (List.replicate (f.header - f.body.length) (0 : Nat))
      exact this
    · rw [hb]
      intro x hx
      rw [List.drop_left] at hx
      exact List.eq_of_mem_replicate hx

/-- Witness for C8's amended statement: an unopenable file errors out,
and an openable file declaring 3 values with a one-value body is read
as a success. -/
theorem readSerialized_amended_witness :
    readSerialized ⟨false, 1, [3]⟩ = .error (-2) ∧
    (∃ v, readSerialized ⟨true, 3, [6]⟩ = .ok v ∧
      v.length = (3 : Nat) ∧
      v.take (SerFile.mk true 3 [6]).body.length = [6] ∧
      ∀ x ∈ v.drop (SerFile.mk true 3 [6]).body.length, x = 0) :=
  ⟨(readSerialized_amended ⟨false, 1, [3]⟩).1 rfl,
   (readSerialized_amended ⟨true, 3, [6]⟩).2 rfl (by decide)⟩

/-- Helper: among `0, 1, …, c-1` exactly `c / m` numbers have residue
`v` modulo `m`, plus one more when `v < c % m` (for `v < m`). -/
theorem count_mod_eq (m : Nat) (hm : 0 < m) (v : Nat) (hv : v < m) :
    ∀ c, acceptCount c m v = c / m + (if v < c % m then 1 else 0) := by
  intro c
  induction c with
  | zero => simp [acceptCount]
  | succ c ih =>
    have hstep : acceptCount (c + 1) m v =
        acceptCount c m v + (if c % m = v then 1 else 0) := by
      unfold acceptCount
      rw [List.range_succ, List.filter_append]
      by_cases h : c % m = v
      · simp [h]
      · simp [h]
    rw [hstep, ih]
    have hdm := Nat.div_add_mod c m
    have hrm : c % m < m := Nat.mod_lt c hm
    by_cases hlast : c % m + 1 = m
    · have hdvd : m ∣ c + 1 := by
        refine ⟨c / m + 1, ?_⟩
        rw [Nat.mul_add, Nat.mul_one]
        omega
      have hdiv : (c + 1) / m = c / m + 1 := by
        rw [Nat.succ_div, if_pos hdvd]
      have hmod : (c + 1) % m = 0 := by
        obtain ⟨t, ht⟩ := hdvd
        rw [ht, Nat.mul_mod_right]
      rw [hdiv, hmod]
      by_cases hveq : c % m = v
      · rw [if_neg (Nat.not_lt_zero v), if_neg (by omega : ¬ v < c % m), if_pos hveq]
      · rw [if_neg (Nat.not_lt_zero v), if_pos (by omega : v < c % m), if_neg hveq]
    · have h1 : c + 1 = m * (c / m) + (c % m + 1) := by omega
      have hdiv : (c + 1) / m = c / m := by
        rw [h1, Nat.mul_add_div hm, Nat.div_eq_of_lt (by omega : c % m + 1 < m)]
        omega
      have hmod : (c + 1) % m = c % m + 1 := by
        rw [h1, Nat.mul_add_mod, Nat.mod_eq_of_lt (by omega : c % m + 1 < m)]
      rw [hdiv, hmod]
      by_cases hveq : v = c % m
      · rw [if_pos (by omega : v < c % m + 1), if_neg (by omega : ¬ v < c % m),
          if_pos (by omega : c % m = v)]
      · by_cases hlt : v < c % m
        · rw [if_pos (by omega : v < c % m + 1), if_pos hlt,
            if_neg (by omega : ¬ c % m = v)]
        · rw [if_neg (by omega : ¬ v < c % m + 1), if_neg hlt,
            if_neg (by omega : ¬ c % m = v)]

/-- **C6** (the code contradicts the intended unbiasedness).  For
`max_value = 6` (`mt19937_64` generator, `uNodeID_ = uint32_t`):
`mod_ = 7`, and `cutoff_` — computed as the 64-bit value
`rng.max() - remainder_sub_1` truncated into the `uint32_t` field — is
`2^32 - 2`, which is *not* a multiple of `max_value + 1`.  Hence the
accepted region `[0, cutoff)` gives value `0` one more accepted
generator sample than value `6`: the rejection sampling is biased, not
unbiased as specified. -/
theorem uniDist_cutoff_biased :
    (uniDistInit 6).mod = 7 ∧
    (uniDistInit 6).cutoff = 4294967294 ∧
    ¬ (7 ∣ (uniDistInit 6).cutoff) ∧
    acceptCount (uniDistInit 6).cutoff (uniDistInit 6).mod 0 = 613566757 ∧
    acceptCount (uniDistInit 6).cutoff (uniDistInit 6).mod 6 = 613566756 := by
  have hmod : (uniDistInit 6).mod = 7 := by decide
  have hcut : (uniDistInit 6).cutoff = 4294967294 := by decide
  refine ⟨hmod, hcut, ?_, ?_, ?_⟩
  · rintro ⟨t, ht⟩
    rw [hcut] at ht
    omega
  · rw [hcut, hmod, count_mod_eq 7 (by omega) 0 (by omega)]
    norm_num
  · rw [hcut, hmod, count_mod_eq 7 (by omega) 6 (by omega)]
    norm_num

/-- Helper: the draw-until-positive-degree loop is sound (whatever it
returns is a drawn sample of positive out-degree) and terminates with a
result as soon as some draw within the fuel bound has positive
out-degree. -/
theorem pickRandomLoop_spec (offsets : List Nat) (samples : Nat → Nat) :
    ∀ (fuel i : Nat),
      (∀ s, pickRandomLoop offsets samples i fuel = some s →
        0 < outDeg offsets s ∧ ∃ j, s = samples j) ∧
      ((∃ j, i ≤ j ∧ j < i + fuel ∧ 0 < outDeg offsets (samples j)) →
        ∃ s, pickRandomLoop offsets samples i fuel = some s) := by
  intro fuel
  induction fuel with
  | zero =>
    intro i
    constructor
    · intro s hs
      simp [pickRandomLoop] at hs
    · rintro ⟨j, hij, hj, _⟩
      omega
  | succ fuel ih =>
    intro i
    by_cases hd : outDeg offsets (samples i) = 0
    · have heq : pickRandomLoop offsets samples i (fuel + 1) =
          pickRandomLoop offsets samples (i + 1) fuel := by
        simp [pickRandomLoop, hd]
      constructor
      · intro s hs
        rw [heq] at hs
        exact (ih (i + 1)).1 s hs
      · rintro ⟨j, hij, hj, hdj⟩
        rw [heq]
        refine (ih (i + 1)).2 ⟨j, ?_, by omega, hdj⟩
        rcases Nat.eq_or_lt_of_le hij with rfl | h
        · omega
        · omega
    · have heq : pickRandomLoop offsets samples i (fuel + 1) = some (samples i) := by
        simp [pickRandomLoop, hd]
      constructor
      · intro s hs
        rw [heq] at hs
        cases hs
        exact ⟨Nat.pos_of_ne_zero hd, i, rfl⟩
      · intro _
        exact ⟨samples i, heq⟩

/-- **C5.** `SourcePicker::PickNext`: with a fixed source supplied
(`given_source_ != UINT_MAX`) it returns that source; otherwise, with
no sources file, provided the bounded sample stream stays in `[0, n)`
(the `UniDist` range), covers every vertex within the fuel bound, and
the graph has a vertex of positive out-degree, it returns a vertex `s`
with `offsets[s+1] - offsets[s] > 0` and `s ∈ [0, n)`. -/
theorem pickNext_spec (gs UM : Nat) (fs : List Nat) (cur : Nat)
    (offsets : List Nat) (samples : Nat → Nat) (fuel n : Nat)
    (hrange : ∀ i, samples i < n)
    (hsurj : ∀ v, v < n → ∃ i, i < fuel ∧ samples i = v)
    (hdeg : ∃ v, v < n ∧ 0 < outDeg offsets v) :
    (gs ≠ UM → (PickNext gs UM fs cur offsets samples fuel).1 = some gs) ∧
    (gs = UM → fs = [] →
      ∃ s, (PickNext gs UM fs cur offsets samples fuel).1 = some s ∧
        s < n ∧ 0 < outDeg offsets s) := by
  constructor
  · intro h
    simp [PickNext, h]
  · intro hg hf
    obtain ⟨v, hv, hdv⟩ := hdeg
    obtain ⟨j, hj, hsj⟩ := hsurj v hv
    obtain ⟨s, hs⟩ := (pickRandomLoop_spec offsets samples fuel 0).2
      ⟨j, Nat.zero_le j, by omega, by rw [hsj]; exact hdv⟩
    obtain ⟨hpos, j', hj'⟩ := (pickRandomLoop_spec offsets samples fuel 0).1 s hs
    refine ⟨s, ?_, ?_, hpos⟩
    · simp [PickNext, hg, hf]
      exact hs
    · rw [hj']
      exact hrange j'

/-- Witness for C5 on the one-vertex graph `offsets = [0, 2]` with a
constant sample stream: the fixed-source branch and the random branch,
each at a concrete input. -/
theorem pickNext_spec_witness :
    ((5 : Nat) ≠ 4294967295 ∧
      (PickNext 5 4294967295 [] 0 [0, 2] (fun _ => 0) 1).1 = some 5) ∧
    (∃ s, (PickNext 4294967295 4294967295 [] 0 [0, 2] (fun _ => 0) 1).1 = some s ∧
      s < 1 ∧ 0 < outDeg [0, 2] s) :=
  ⟨⟨by decide,
    (pickNext_spec 5 4294967295 [] 0 [0, 2] (fun _ => 0) 1 1
      (fun _ => Nat.one_pos) (fun v hv => ⟨0, Nat.one_pos, by show 0 = v; omega⟩)
      ⟨0, Nat.one_pos, by decide⟩).1 (by decide)⟩,
   (pickNext_spec 4294967295 4294967295 [] 0 [0, 2] (fun _ => 0) 1 1
      (fun _ => Nat.one_pos) (fun v hv => ⟨0, Nat.one_pos, by show 0 = v; omega⟩)
      ⟨0, Nat.one_pos, by decide⟩).2 rfl rfl⟩

/-- **C7.** The source-selection loop seeds its generator with the
literal constant `27491095`: the sequence of picked sources is a
function of the graph (and loop bounds) alone — two runs differing in
any environmental input `e₁`, `e₂` produce identical sequences. -/
theorem source_selection_deterministic (offsets : List Nat)
    (n numSrc fuel : Nat) (e₁ e₂ : Nat) :
    sourceSelectionRun offsets n numSrc fuel e₁ =
      sourceSelectionRun offsets n numSrc fuel e₂ ∧
    sourceSelectionRun offsets n numSrc fuel e₁ =
      sourceSelLoop offsets (uniDistInit (n - 1)) fuel numSrc (mtInit 27491095) :=
  ⟨rfl, rfl⟩
